import Mathlib

/-!
Shallow embedding of the DINOv2ForMedical evaluation utilities
(`dinov2/eval/segmentation/utils.py`, `dinov2/eval/classification/utils.py`,
`dinov2/eval/mlknn.py`, `dinov2/data/datasets/shenzhen.py`) together with
theorems checking the repository's specification against the code.

Tensors are modelled extensionally: a 2D slice of a volumetric scan is the
flattened list of its rational entries; batches and slice stacks are lists.
The frozen encoder, classifier heads and decoder projections are external
collaborators and appear as function parameters.
-/

/-- A tensor slice (one 2D cut of a volumetric scan), flattened to the list of
its numeric entries. -/
abbrev Slice := List ℚ

/-- Modelled from the spec: `is_zero_matrix` lives in `dinov2/eval/utils.py`,
which is not part of the provided sources; per the spec a slice is the
designated "empty" sentinel iff all its elements equal the fill value zero. -/
def is_zero_matrix (m : Slice) : Bool :=
  m.all (fun v => v == 0)

/-- `DINOV2Encoder.forward_3d` (`dinov2/eval/segmentation/utils.py`): for every
scan stack in the batch, append `forward_(scan.unsqueeze(0))` for exactly the
slices that are not the zero sentinel.  `encoder` stands for `forward_`
(the `no_grad`/`autocast` wrappers do not change the value), and the
`unsqueeze(0)` is the singleton batch `[scan]`. -/
def dinov2_forward_3d {F : Type} (encoder : List Slice → F) (x : List (List Slice)) :
    List (List F) :=
  x.map (fun batch_scans =>
    batch_scans.filterMap (fun scan =>
      if is_zero_matrix scan then none else some (encoder [scan])))

/-- `torch.stack` on a list of equally-shaped tensors: it raises on an empty
list and otherwise packs the tensors along a new leading dimension, modelled
as the list of the stacked tensors. -/
def torch_stack {T : Type} (ts : List T) : Option (List T) :=
  match ts with
  | [] => none
  | t :: rest => some (t :: rest)

/-- `LinearDecoder.forward_3d` (`dinov2/eval/segmentation/utils.py`) in the
default non-vectorized mode: for every sample's retained slice embeddings,
`torch.stack([forward_(e) for e in batch_embeddings])`.  `fwd` stands for the
per-tensor `forward_` projection; `squeeze()` only reshapes and is not
modelled.  The stack of an empty list of per-slice outputs raises, hence the
`Option`. -/
def linearDecoder_forward_3d {E O : Type} (fwd : E → O) (embeddings : List (List E)) :
    Option (List (List O)) :=
  embeddings.mapM (fun batch_embeddings => torch_stack (batch_embeddings.map fwd))

/-- Index of the first maximal entry of a per-pixel class-logit vector,
modelling `argmax` over the class dimension. -/
def maxVal : List ℚ → ℚ
  | [] => 0
  | [a] => a
  | a :: b :: rest => max a (maxVal (b :: rest))

/-- First index attaining `maxVal`. -/
def argmaxIdx : List ℚ → Nat
  | [] => 0
  | [_] => 0
  | a :: b :: rest => if maxVal (b :: rest) ≤ a then 0 else argmaxIdx (b :: rest) + 1

/-- `.type(torch.int64)` on a floating value: truncation toward zero. -/
def castInt64 (q : ℚ) : ℤ :=
  Int.tdiv q.num (q.den : ℤ)

/-- Result record of `LinearPostprocessor.forward`: the `preds`/`target`
dictionary. -/
structure PredsTarget where
  preds : List (List Nat)
  target : List (List ℤ)
deriving DecidableEq

/-- `LinearPostprocessor.forward` (`dinov2/eval/segmentation/utils.py`) in the
3D branch (`isinstance(logits, list)`): `logits = self.decoder(samples)` is a
list of per-sample slice sequences; both logits and targets are concatenated
along the first dimension (`torch.cat(_, dim=0)`, `List.join`), predictions
are `argmax(dim=1)` per pixel, and targets are cast to `int64`.  A per-slice
logit map is the list, over pixels, of its class-logit vectors; a per-slice
target map is the list of its pixel values. -/
def linearPostprocessor_forward {S : Type}
    (decoder : S → List (List (List (List ℚ)))) (samples : S)
    (targets : List (List (List ℚ))) : PredsTarget :=
  let logits := decoder samples
  let catLogits := logits.flatten
  let catTargets := targets.flatten
  { preds := catLogits.map (fun sl => sl.map argmaxIdx)
    target := catTargets.map (fun sl => sl.map castInt64) }

/-- Transpose of a rectangular list of rows, modelling `torch.stack(ts, dim=1)`
on a list of equally-shaped tensors: entry `(c, b)` of the result is entry `c`
of input tensor `b`. -/
def transposeRect {α : Type} : List (List α) → List (List α)
  | [] => []
  | [] :: _ => []
  | (a :: as) :: rest =>
    (a :: rest.filterMap List.head?) :: transposeRect (as :: rest.map List.tail)
termination_by l => (l.headD []).length

/-- `classifier_forward_pass` (`dinov2/eval/classification/utils.py`) in the 3D
branch: per batch entry, features are collected for exactly the non-sentinel
slices (`feature_model(scan.unsqueeze(0))`); every classifier head is applied
to the collected features (`classifier_heads(batch_feature).values()`, in the
heads' declaration order); the head outputs are stacked across classifiers
(`torch.stack(output)`, which raises when there are no heads) and then across
the batch (`torch.stack(classifier_outputs, dim=1)`, which raises when the
batch is empty); finally the rows of the stacked tensor are keyed by the
heads' names in declaration order.  Heads are the association list
`classifiers_dict`; `squeeze()` only reshapes and is not modelled. -/
def classifier_forward_pass_3d {F O : Type} (feature_model : List Slice → F)
    (classifier_heads : List (String × (List F → O))) (data : List (List Slice)) :
    Option (List (String × List O)) :=
  let batch_features := data.map (fun batch_scans =>
    batch_scans.filterMap (fun scan =>
      if is_zero_matrix scan then none else some (feature_model [scan])))
  let outputs := batch_features.map (fun bf =>
    classifier_heads.map (fun kv => kv.2 bf))
  if outputs.any List.isEmpty then none
  else if outputs.isEmpty then none
  else some ((classifier_heads.map Prod.fst).zip (transposeRect outputs))

/-- The duck-typed split object consumed by `Shenzhen.__init__`
(`dinov2/data/datasets/shenzhen.py`): the constructor only reads its `value`
string and its `length` property.  The three members of the `_Split` enum are
`shenzhen_TRAIN`, `shenzhen_VAL`, `shenzhen_TEST` below. -/
structure PySplit where
  value : String
  length : Nat
deriving DecidableEq

/-- `_Split.TRAIN` with its canonical cardinality. -/
def shenzhen_TRAIN : PySplit := ⟨"train", 361⟩

/-- `_Split.VAL` with its canonical cardinality. -/
def shenzhen_VAL : PySplit := ⟨"val", 91⟩

/-- `_Split.TEST` with its canonical cardinality. -/
def shenzhen_TEST : PySplit := ⟨"test", 114⟩

/-- `Shenzhen._define_split_dir`: compute `root + os.sep + split.value` and
raise `ValueError` (the spec's `ConfigurationError`) when the split value is
not one of the three recognized names. -/
def define_split_dir (root : String) (split : PySplit) : Except String String :=
  let split_dir := root ++ "/" ++ split.value
  if split.value ∈ ["train", "val", "test"] then Except.ok split_dir
  else Except.error ("Unsupported split \"" ++ split.value ++ "\"")

/-- `Shenzhen._check_size`: the single log message emitted during
construction, reporting `split.length - len(os.listdir(split_dir))`. -/
def check_size (listDir : String → List String) (split : PySplit)
    (split_dir : String) : String :=
  toString ((split.length : ℤ) - ((listDir split_dir).length : ℤ))
    ++ " scans are missing from " ++ split.value.toUpper ++ " set"

/-- The state built by `Shenzhen.__init__`, together with the log messages the
construction emitted. -/
structure ShenzhenDataset where
  root : String
  masks_path : String
  split : PySplit
  split_dir : String
  images : List String
  logs : List String

/-- `Shenzhen.__init__`: resolve the split directory (raising on an
unrecognized split value), log the size check, and enumerate the image files
of the split directory.  The filesystem is the external parameter `listDir`
(`os.listdir`). -/
def shenzhen_init (listDir : String → List String) (root : String)
    (split : PySplit) : Except String ShenzhenDataset :=
  match define_split_dir root split with
  | Except.error e => Except.error e
  | Except.ok split_dir =>
    let log := check_size listDir split split_dir
    Except.ok
      { root := root
        masks_path := root ++ "/" ++ "masks"
        split := split
        split_dir := split_dir
        images := listDir split_dir
        logs := [log] }

/-- The mask filename computed by `Shenzhen.get_target`:
`self.images[index].split(".")[0] + "_mask.png"`.  Python's `split(".")[0]`
is the longest dot-free prefix of the filename. -/
def mask_file_name (image_name : String) : String :=
  String.mk (image_name.toList.takeWhile (fun c => c != '.')) ++ "_mask.png"

/-- Modelled from the spec: the mask-name transform the spec states,
`<image_stem>_mask.png`, where the stem of a filename is the filename with
its final `.`-extension removed (the whole name when it has no dot). -/
def spec_stem (name : String) : String :=
  let cs := name.toList
  if '.' ∈ cs then String.mk ((cs.reverse.dropWhile (fun c => c != '.')).tail.reverse)
  else name

/-- Modelled from the spec: the full mask filename the spec prescribes. -/
def spec_mask_file_name (image_name : String) : String :=
  spec_stem image_name ++ "_mask.png"

/-- `self.class_id_mapping = {"background": 0, "lung": 1}`. -/
def class_id_mapping : List (String × ℤ) := [("background", 0), ("lung", 1)]

/-- Dictionary lookup `self.class_id_mapping[name]`. -/
def class_id (name : String) : ℤ :=
  (((class_id_mapping.find? (fun p => p.1 == name)).map Prod.snd)).getD 0

/-- The in-place remap `mask[mask == 255] = self.class_id_mapping["lung"]`
applied to the flattened mask pixels. -/
def remap_mask (lung_id : ℤ) (mask : List ℤ) : List ℤ :=
  mask.map (fun v => if v = 255 then lung_id else v)

/-- `Shenzhen.get_target`: derive the mask path from the image filename, load
the mask (the external parameter `load_mask` models `skimage.io.imread`
followed by the integer conversion), remap pixel value 255 to the "lung"
class id, and `unsqueeze(0)` into a singleton channel dimension. -/
def get_target (masks_path : String) (load_mask : String → List ℤ)
    (images : List String) (index : Nat) : List (List ℤ) :=
  let mask_path := mask_file_name (images.getD index "")
  let mask := load_mask (masks_path ++ "/" ++ mask_path)
  [remap_mask (class_id "lung") mask]

/-- Round to the nearest integer, ties to the even integer — the rounding
Python's fixed-point float formatting applies. -/
def roundHalfEven (n d : ℤ) : ℤ :=
  let f : ℤ := Int.fdiv n d
  let r : ℤ := n - f * d
  if 2 * r < d then f
  else if d < 2 * r then f + 1
  else if f % 2 = 0 then f else f + 1

/-- Python's `f"{q:.10f}"` on a (nonnegative-valued) number: decimal
fixed-point with exactly ten fractional digits, i.e. the rounding of
`q * 10^10` rendered with the decimal point shifted back. -/
def formatFixed10 (q : ℚ) : String :=
  let scaled : ℤ := roundHalfEven (q.num * 10000000000) (q.den : ℤ)
  let sign : String := if scaled < 0 then "-" else ""
  let a : Nat := scaled.natAbs
  let ip : Nat := a / 10000000000
  let fp : Nat := a % 10000000000
  let fs : String := toString fp
  let pad : String := String.mk (List.replicate (10 - fs.length) '0')
  sign ++ toString ip ++ "." ++ pad ++ fs

/-- Python's `.replace(".", "_")` for the single-character pattern: replace
every dot character by an underscore. -/
def replace_dots (s : String) : String :=
  String.mk (s.toList.map (fun c => if c = '.' then '_' else c))

/-- The dictionary key `f"{decoder_type}:lr={lr:.10f}".replace(".", "_")`
built by `setup_decoders`. -/
def decoder_key (decoder_type : String) (lr : ℚ) : String :=
  replace_dots (decoder_type ++ ":lr=" ++ formatFixed10 lr)

/-- The configuration of a `LinearDecoder` instance
(`dinov2/eval/segmentation/utils.py`); the randomly initialized projection
weights are not modelled. -/
structure LinearDecoderM where
  in_channels : Nat
  width : Nat
  height : Nat
  num_classes : Nat
  is_3d : Bool
deriving DecidableEq

/-- `LinearDecoder.__init__(embed_dim, num_classes=num_classes, is_3d=is_3d)`
with the default token grid 32×32. -/
def mkLinearDecoder (embed_dim num_classes : Nat) (is_3d : Bool) : LinearDecoderM :=
  ⟨embed_dim, 32, 32, num_classes, is_3d⟩

/-- `LinearDecoder.DECODER_TYPE`. -/
def LinearDecoder_DECODER_TYPE : String := "linear"

/-- One optimizer parameter group `{"params": decoder.parameters(), "lr": lr}`. -/
structure ParamGroup where
  params : LinearDecoderM
  lr : ℚ
deriving DecidableEq

/-- The `AllDecoders` module: the ordered decoder dictionary plus the
`decoder_type` read off the first entry. -/
structure AllDecodersM where
  decoders_dict : List (String × LinearDecoderM)
  decoder_type : String
deriving DecidableEq

/-- `AllDecoders.__init__`: `list(decoders_dict.values())[0]` raises
`IndexError` on an empty dictionary, hence the `Option`. -/
def mkAllDecoders (d : List (String × LinearDecoderM)) : Option AllDecodersM :=
  match d with
  | [] => none
  | _ :: _ => some ⟨d, LinearDecoder_DECODER_TYPE⟩

/-- Python dict assignment `d[k] = v` on an insertion-ordered dictionary:
overwrite in place when the key exists, append otherwise. -/
def dict_insert (d : List (String × LinearDecoderM)) (k : String)
    (v : LinearDecoderM) : List (String × LinearDecoderM) :=
  if d.any (fun p => p.1 == k) then
    d.map (fun p => if p.1 == k then (k, v) else p)
  else d ++ [(k, v)]

/-- The `for lr in learning_rates` loop of `setup_decoders`, threading the
decoder dictionary and the optimizer parameter groups.  When `decoder_type`
is not `"linear"` the loop body leaves `decoder` unbound and the first
iteration raises `NameError`, hence the `Option`. -/
def setup_decoders_loop (embed_dim num_classes : Nat) (is_3d : Bool)
    (decoder_type : String) :
    List ℚ → List (String × LinearDecoderM) → List ParamGroup →
    Option (List (String × LinearDecoderM) × List ParamGroup)
  | [], d, g => some (d, g)
  | lr :: rest, d, g =>
    if decoder_type == "linear" then
      let dec := mkLinearDecoder embed_dim num_classes is_3d
      setup_decoders_loop embed_dim num_classes is_3d decoder_type rest
        (dict_insert d (decoder_key decoder_type lr) dec)
        (g ++ [⟨dec, lr⟩])
    else none

/-- `setup_decoders` (`dinov2/eval/segmentation/utils.py`): one decoder and
one optimizer parameter group per learning rate in the caller-supplied list,
then the `AllDecoders` wrapper (distributed wrapping is disabled in the
single-process model). -/
def setup_decoders (embed_dim : Nat) (learning_rates : List ℚ)
    (num_classes : Nat) (decoder_type : String) (is_3d : Bool) :
    Option (AllDecodersM × List ParamGroup) := do
  let (d, g) ← setup_decoders_loop embed_dim num_classes is_3d decoder_type
    learning_rates [] []
  let decoders ← mkAllDecoders d
  some (decoders, g)

/-- Checked division: the spot where a division error would occur. -/
def cdiv (a b : ℚ) : Option ℚ :=
  if b = 0 then none else some (a / b)

/-- Modelled from the spec: the `MLkNN` classifier lives in
`dinov2/eval/utils.py`, which is not part of the provided sources; the
definitions below follow spec §4.3.  The training label matrix is the list of
per-sample binary label rows; `label_of` reads entry `(i, c)`. -/
def label_of (labels : List (List Bool)) (i c : Nat) : Bool :=
  (labels.getD i []).getD c false

/-- Modelled from the spec: number of samples in `nbrs` positive for class
`c` — the neighbor-positive count `j`. -/
def pos_count (labels : List (List Bool)) (nbrs : List Nat) (c : Nat) : Nat :=
  (nbrs.filter (fun j => label_of labels j c)).length

/-- Modelled from the spec: number of training samples positive for class `c`
(the global per-class positive prior count). -/
def count_pos (labels : List (List Bool)) (c : Nat) : Nat :=
  ((List.range labels.length).filter (fun i => label_of labels i c)).length

/-- Modelled from the spec: number of training samples negative for class
`c`. -/
def count_neg (labels : List (List Bool)) (c : Nat) : Nat :=
  ((List.range labels.length).filter (fun i => !(label_of labels i c))).length

/-- Modelled from the spec: histogram entry `c[c][j]` — training samples `i`
positive for `c` whose k nearest other training samples (given by the
external neighbor-search collaborator `neighbors`) include exactly `j`
positives for `c`. -/
def c_hist (labels : List (List Bool)) (neighbors : Nat → List Nat)
    (c j : Nat) : Nat :=
  ((List.range labels.length).filter (fun i =>
    label_of labels i c && (pos_count labels (neighbors i) c == j))).length

/-- Modelled from the spec: histogram entry conditioned on the sample being
negative for `c`. -/
def cn_hist (labels : List (List Bool)) (neighbors : Nat → List Nat)
    (c j : Nat) : Nat :=
  ((List.range labels.length).filter (fun i =>
    !(label_of labels i c) && (pos_count labels (neighbors i) c == j))).length

/-- Modelled from the spec: Laplace-smoothed (add-one) prior of being
positive for class `c`: `(1 + count_pos) / (1*2 + num_samples)`. -/
def mlknn_prior_pos (labels : List (List Bool)) (c : Nat) : Option ℚ :=
  cdiv (1 + (count_pos labels c : ℚ)) (1 * 2 + (labels.length : ℚ))

/-- Modelled from the spec: smoothed prior of being negative for class `c`. -/
def mlknn_prior_neg (labels : List (List Bool)) (c : Nat) : Option ℚ :=
  cdiv (1 + (count_neg labels c : ℚ)) (1 * 2 + (labels.length : ℚ))

/-- Modelled from the spec: smoothed likelihood `P(j | positive, c)` —
add-one numerator over the denominator scaled by the `k+1` possible
neighbor-positive counts. -/
def mlknn_cond_pos (labels : List (List Bool)) (neighbors : Nat → List Nat)
    (k c j : Nat) : Option ℚ :=
  cdiv (1 + (c_hist labels neighbors c j : ℚ))
    (1 * ((k : ℚ) + 1) + ((List.range (k + 1)).map
      (fun j' => (c_hist labels neighbors c j' : ℚ))).sum)

/-- Modelled from the spec: smoothed likelihood `P(j | negative, c)`. -/
def mlknn_cond_neg (labels : List (List Bool)) (neighbors : Nat → List Nat)
    (k c j : Nat) : Option ℚ :=
  cdiv (1 + (cn_hist labels neighbors c j : ℚ))
    (1 * ((k : ℚ) + 1) + ((List.range (k + 1)).map
      (fun j' => (cn_hist labels neighbors c j' : ℚ))).sum)

/-- Modelled from the spec: the posterior for one query and one class —
count the positives `j` among the query's k nearest training neighbors,
form `P(positive) * P(j|positive)` and `P(negative) * P(j|negative)`, and
normalize. -/
def mlknn_predict_one (labels : List (List Bool)) (neighbors : Nat → List Nat)
    (k : Nat) (qnbrs : List Nat) (c : Nat) : Option ℚ := do
  let j := pos_count labels qnbrs c
  let p1p ← mlknn_prior_pos labels c
  let c1 ← mlknn_cond_pos labels neighbors k c j
  let p0p ← mlknn_prior_neg labels c
  let c0 ← mlknn_cond_neg labels neighbors k c j
  cdiv (p1p * c1) (p1p * c1 + p0p * c0)

/-- Modelled from the spec: `predict` after `fit` — for every query (given by
its list of k nearest training indices, produced by the external
neighbor-search collaborator) and every class, the normalized posterior
probability of membership.  A `none` anywhere models a raised division
error. -/
def mlknn_predict (labels : List (List Bool)) (neighbors : Nat → List Nat)
    (k : Nat) (query_neighbors : List (List Nat)) (num_labels : Nat) :
    Option (List (List ℚ)) :=
  query_neighbors.mapM (fun q =>
    (List.range num_labels).mapM (fun c =>
      mlknn_predict_one labels neighbors k q c))

theorem filterMap_skip_eq_map_filter {α β : Type} (p : α → Bool) (f : α → β) :
    ∀ l : List α,
      l.filterMap (fun a => if p a then none else some (f a))
        = (l.filter (fun a => !(p a))).map f := by
  intro l
  induction l with
  | nil => rfl
  | cons a l ih =>
    by_cases h : p a <;> simp [h, ih]

/-- C1: for every volumetric batch, 3D feature extraction produces, per
sample, exactly one embedding per slice that is not the all-zero sentinel,
in the original slice order — the encoder is applied to exactly those
slices; in particular a 5-slice sample whose slices 1 and 3 are all-zero
yields exactly the 3 embeddings of slices 0, 2, 4, in order. -/
theorem c1_empty_slice_skipping {F : Type} (encoder : List Slice → F)
    (x : List (List Slice)) :
    dinov2_forward_3d encoder x
      = x.map (fun scans =>
          (scans.filter (fun s => !(is_zero_matrix s))).map (fun s => encoder [s]))
    ∧ dinov2_forward_3d encoder [[[1], [0], [2], [0], [3]]]
      = [[encoder [[1]], encoder [[2]], encoder [[3]]]] := by
  constructor
  · unfold dinov2_forward_3d
    apply List.map_congr_left
    intro scans _
    exact filterMap_skip_eq_map_filter is_zero_matrix (fun s => encoder [s]) scans
  · simp [dinov2_forward_3d, is_zero_matrix]

/-- C10: a volumetric sample all of whose slices are the zero sentinel gets
an empty embedding sequence from 3D feature extraction, and non-vectorized
3D decoding of that empty sequence fails (the stack of an empty list of
per-slice outputs raises) instead of returning a logit sequence. -/
theorem c10_all_empty_sample_decoding_fails {F O : Type}
    (encoder : List Slice → F) (fwd : F → O) :
    dinov2_forward_3d encoder [List.replicate 5 (List.replicate 4 0)] = [[]]
    ∧ linearDecoder_forward_3d fwd
        (dinov2_forward_3d encoder [List.replicate 5 (List.replicate 4 0)]) = none := by
  have h : dinov2_forward_3d encoder [List.replicate 5 (List.replicate 4 0)] = [[]] := by
    simp [dinov2_forward_3d, is_zero_matrix]
  refine ⟨h, ?_⟩
  rw [h]
  rfl

/-- C6: target retrieval remaps every mask pixel of value 255 to the "lung"
class id 1 and returns every other pixel unchanged; the loaded mask is
always passed through exactly this remap, and the synthetic mask
`[0, 255, 128]` yields `[0, 1, 128]`. -/
theorem c6_mask_remap :
    (∀ mask : List ℤ,
      List.Forall₂ (fun v w => w = if v = 255 then (1 : ℤ) else v) mask
        (remap_mask (class_id "lung") mask))
    ∧ (∀ (mp : String) (load : String → List ℤ) (imgs : List String) (i : Nat),
        get_target mp load imgs i
          = [remap_mask (class_id "lung")
              (load (mp ++ "/" ++ mask_file_name (imgs.getD i "")))])
    ∧ remap_mask (class_id "lung") [0, 255, 128] = [0, 1, 128] := by
  refine ⟨?_, fun mp load imgs i => rfl, by decide⟩
  intro mask
  have hid : class_id "lung" = 1 := by decide
  rw [hid]
  unfold remap_mask
  rw [List.forall₂_map_right_iff]
  exact List.forall₂_same.mpr (fun v _ => rfl)

/-- C4: constructing the Shenzhen sample index with a split whose value is
not one of the three recognized names fails at construction time with the
unsupported-split error, before any dataset state is built. -/
theorem c4_unsupported_split (listDir : String → List String) (root : String)
    (split : PySplit) (h : split.value ∉ ["train", "val", "test"]) :
    shenzhen_init listDir root split
      = Except.error ("Unsupported split \"" ++ split.value ++ "\"") := by
  unfold shenzhen_init define_split_dir
  rw [if_neg h]

theorem c4_unsupported_split_witness :
    ("validation" ∉ ["train", "val", "test"])
    ∧ shenzhen_init (fun _ => []) "/data" ⟨"validation", 500⟩
        = Except.error ("Unsupported split \"validation\"") :=
  ⟨by decide, c4_unsupported_split (fun _ => []) "/data" ⟨"validation", 500⟩ (by decide)⟩

/-- C5: for every split directory whose file count differs from the split's
canonical cardinality, construction still succeeds, emits exactly one
missing-count log message, and the sample count equals the number of files
actually found. -/
theorem c5_size_mismatch_nonfatal (listDir : String → List String) (root : String)
    (split : PySplit) (hvalid : split.value ∈ ["train", "val", "test"])
    (hdiff : (listDir (root ++ "/" ++ split.value)).length ≠ split.length) :
    ∃ ds : ShenzhenDataset,
      shenzhen_init listDir root split = Except.ok ds
      ∧ ds.images.length = (listDir (root ++ "/" ++ split.value)).length
      ∧ ds.logs.length = 1 := by
  unfold shenzhen_init define_split_dir
  rw [if_pos hvalid]
  exact ⟨_, rfl, rfl, rfl⟩

set_option maxRecDepth 4000 in
theorem c5_size_mismatch_nonfatal_witness :
    (("train" : String) ∈ ["train", "val", "test"])
    ∧ ((fun _ => List.replicate 360 "x.png") ("/data" ++ "/" ++ "train") :
        List String).length ≠ (361 : Nat)
    ∧ ∃ ds : ShenzhenDataset,
        shenzhen_init (fun _ => List.replicate 360 "x.png") "/data" shenzhen_TRAIN
          = Except.ok ds
        ∧ ds.images.length
            = ((fun _ => List.replicate 360 "x.png") ("/data" ++ "/" ++ "train") :
                List String).length
        ∧ ds.logs.length = 1 :=
  ⟨by decide, by decide,
    c5_size_mismatch_nonfatal (fun _ => List.replicate 360 "x.png") "/data"
      shenzhen_TRAIN (by decide) (by decide)⟩

/-- C8: for every 3D batch, the postprocessor concatenates all per-sample
logit sequences and all matching target sequences along the first dimension,
then takes the per-pixel argmax over the class dimension and casts targets
to the integer label type; when per-sample slice counts match, the
prediction and target sets are aligned 1:1 over exactly the valid slices. -/
theorem c8_postprocessor_concat_argmax {S : Type}
    (decoder : S → List (List (List (List ℚ)))) (samples : S)
    (targets : List (List (List ℚ)))
    (h : (decoder samples).map List.length = targets.map List.length) :
    (linearPostprocessor_forward decoder samples targets).preds
        = ((decoder samples).flatten).map (fun sl => sl.map argmaxIdx)
    ∧ (linearPostprocessor_forward decoder samples targets).target
        = (targets.flatten).map (fun sl => sl.map castInt64)
    ∧ (linearPostprocessor_forward decoder samples targets).preds.length
        = (linearPostprocessor_forward decoder samples targets).target.length
    ∧ (linearPostprocessor_forward decoder samples targets).preds.length
        = ((decoder samples).map List.length).sum := by
  refine ⟨rfl, rfl, ?_, ?_⟩
  · show ((decoder samples).flatten.map (fun sl => sl.map argmaxIdx)).length
      = (targets.flatten.map (fun sl => sl.map castInt64)).length
    rw [List.length_map, List.length_map, List.length_flatten,
      List.length_flatten, h]
  · show ((decoder samples).flatten.map (fun sl => sl.map argmaxIdx)).length
      = ((decoder samples).map List.length).sum
    rw [List.length_map, List.length_flatten]

theorem c8_postprocessor_concat_argmax_witness :
    (((fun _ => [[[[(1 : ℚ), 2]]], []]) () : List (List (List (List ℚ)))).map
        List.length = ([[[(3 : ℚ)]], []].map List.length)
    ∧ ((linearPostprocessor_forward (fun _ => [[[[(1 : ℚ), 2]]], []]) ()
          [[[(3 : ℚ)]], []]).preds
        = (([[[[(1 : ℚ), 2]]], []] : List (List (List (List ℚ)))).flatten).map
            (fun sl => sl.map argmaxIdx)
    ∧ (linearPostprocessor_forward (fun _ => [[[[(1 : ℚ), 2]]], []]) ()
          [[[(3 : ℚ)]], []]).target
        = (([[[(3 : ℚ)]], []] : List (List (List ℚ))).flatten).map
            (fun sl => sl.map castInt64)
    ∧ (linearPostprocessor_forward (fun _ => [[[[(1 : ℚ), 2]]], []]) ()
          [[[(3 : ℚ)]], []]).preds.length
        = (linearPostprocessor_forward (fun _ => [[[[(1 : ℚ), 2]]], []]) ()
          [[[(3 : ℚ)]], []]).target.length
    ∧ (linearPostprocessor_forward (fun _ => [[[[(1 : ℚ), 2]]], []]) ()
          [[[(3 : ℚ)]], []]).preds.length
        = (([[[[(1 : ℚ), 2]]], []] : List (List (List (List ℚ)))).map
            List.length).sum)) :=
  ⟨by decide,
    c8_postprocessor_concat_argmax (fun _ => [[[[(1 : ℚ), 2]]], []]) ()
      [[[(3 : ℚ)]], []] (by decide)⟩

theorem takeWhile_append_sep {α : Type} (p : α → Bool) (c : α) (hc : p c = false) :
    ∀ a b : List α, (∀ x ∈ a, p x = true) → (a ++ c :: b).takeWhile p = a := by
  intro a
  induction a with
  | nil => intro b _; simp [List.takeWhile, hc]
  | cons x a ih =>
    intro b ha
    have hx : p x = true := ha x (List.mem_cons_self x a)
    simp only [List.cons_append, List.takeWhile_cons, hx, if_true]
    rw [ih b (fun y hy => ha y (List.mem_cons_of_mem x hy))]

theorem dropWhile_append_sep {α : Type} (p : α → Bool) (c : α) (hc : p c = false) :
    ∀ a b : List α, (∀ x ∈ a, p x = true) → (a ++ c :: b).dropWhile p = c :: b := by
  intro a
  induction a with
  | nil => intro b _; simp [List.dropWhile, hc]
  | cons x a ih =>
    intro b ha
    have hx : p x = true := ha x (List.mem_cons_self x a)
    simp only [List.cons_append, List.dropWhile_cons, hx, if_true]
    exact ih b (fun y hy => ha y (List.mem_cons_of_mem x hy))

theorem count_le_one_decomp {α : Type} [DecidableEq α] (c : α) :
    ∀ l : List α, l.count c ≤ 1 →
      c ∉ l ∨ ∃ a b : List α, l = a ++ c :: b ∧ c ∉ a ∧ c ∉ b := by
  intro l
  induction l with
  | nil => intro _; exact Or.inl (List.not_mem_nil c)
  | cons x l ih =>
    intro h
    by_cases hx : x = c
    · subst hx
      rw [List.count_cons_self] at h
      have hnot : x ∉ l := by
        rw [← List.count_eq_zero]
        omega
      exact Or.inr ⟨[], l, rfl, List.not_mem_nil x, hnot⟩
    · rw [List.count_cons_of_ne (fun he => hx he.symm)] at h
      rcases ih h with hno | ⟨a, b, rfl, hna, hnb⟩
      · exact Or.inl (by
          intro hmem
          rcases List.mem_cons.mp hmem with he | hm
          · exact hx he.symm
          · exact hno hm)
      · exact Or.inr ⟨x :: a, b, rfl, by
          intro hmem
          rcases List.mem_cons.mp hmem with he | hm
          · exact hx he.symm
          · exact hna hm, hnb⟩

theorem string_mk_toList (s : String) : String.mk s.toList = s := rfl

/-- C7 counterexample: for an image filename whose stem contains a dot, the
code truncates at the first dot, so the mask filename is not the stem
followed by `_mask.png`: on `"a.b.png"` the code yields `"a_mask.png"`
while the stem transform yields `"a.b_mask.png"`. -/
theorem c7_mask_name_counterexample :
    mask_file_name "a.b.png" = "a_mask.png"
    ∧ spec_mask_file_name "a.b.png" = "a.b_mask.png"
    ∧ mask_file_name "a.b.png" ≠ spec_mask_file_name "a.b.png" := by
  refine ⟨by decide, by decide, ?_⟩
  intro h
  exact absurd h (by decide)

/-- C7 amended: the mask filename is the image filename truncated at its
FIRST dot followed by `_mask.png`; this agrees with the stem transform
`<image_stem>_mask.png` exactly when the filename contains at most one dot
(so in particular for every filename whose stem is dot-free). -/
theorem c7_mask_name_amended (name : String)
    (h : name.toList.count '.' ≤ 1) :
    mask_file_name name = spec_mask_file_name name := by
  unfold mask_file_name spec_mask_file_name spec_stem
  rcases count_le_one_decomp '.' name.toList h with hno | ⟨a, b, hab, hna, hnb⟩
  · have ht : name.toList.takeWhile (fun c => c != '.') = name.toList :=
      List.takeWhile_eq_self_iff.mpr (fun x hx => by
        rw [bne_iff_ne]
        exact fun he => hno (he ▸ hx))
    rw [ht, if_neg hno, string_mk_toList]
  · have htw : (a ++ '.' :: b).takeWhile (fun c => c != '.') = a :=
      takeWhile_append_sep _ '.' (by decide) a b (fun x hx => by
        rw [bne_iff_ne]
        exact fun he => hna (he ▸ hx))
    have hmem : '.' ∈ a ++ '.' :: b :=
      List.mem_append.mpr (Or.inr (List.mem_cons_self _ _))
    have hrev : (a ++ '.' :: b).reverse = b.reverse ++ '.' :: a.reverse := by
      rw [List.reverse_append, List.reverse_cons, List.append_assoc,
        List.singleton_append]
    have hdw : ((a ++ '.' :: b).reverse).dropWhile (fun c => c != '.')
        = '.' :: a.reverse := by
      rw [hrev]
      exact dropWhile_append_sep _ '.' (by decide) b.reverse a.reverse
        (fun x hx => by
          rw [bne_iff_ne]
          exact fun he => hnb (he ▸ (List.mem_reverse.mp hx)))
    rw [hab, htw, if_pos hmem, hdw]
    simp

theorem c7_mask_name_amended_witness :
    ("CHNCXR_0001_0.png".toList.count '.' ≤ 1)
    ∧ mask_file_name "CHNCXR_0001_0.png" = spec_mask_file_name "CHNCXR_0001_0.png" :=
  ⟨by decide, c7_mask_name_amended "CHNCXR_0001_0.png" (by decide)⟩

theorem dict_insert_fresh (d : List (String × LinearDecoderM)) (k : String)
    (v : LinearDecoderM) (h : k ∉ d.map Prod.fst) :
    dict_insert d k v = d ++ [(k, v)] := by
  unfold dict_insert
  rw [if_neg]
  intro hany
  rcases List.any_eq_true.mp hany with ⟨p, hp, he⟩
  exact h (beq_iff_eq.mp he ▸ List.mem_map_of_mem Prod.fst hp)

theorem setup_decoders_loop_spec (embed_dim num_classes : Nat) (is_3d : Bool) :
    ∀ (lrs : List ℚ) (d : List (String × LinearDecoderM)) (g : List ParamGroup),
      (∀ lr ∈ lrs, decoder_key "linear" lr ∉ d.map Prod.fst) →
      (lrs.map (decoder_key "linear")).Nodup →
      setup_decoders_loop embed_dim num_classes is_3d "linear" lrs d g
        = some
            (d ++ lrs.map (fun lr =>
              (decoder_key "linear" lr, mkLinearDecoder embed_dim num_classes is_3d)),
             g ++ lrs.map (fun lr =>
              ⟨mkLinearDecoder embed_dim num_classes is_3d, lr⟩)) := by
  intro lrs
  induction lrs with
  | nil =>
    intro d g _ _
    simp [setup_decoders_loop]
  | cons lr rest ih =>
    intro d g hfresh hnodup
    have hfresh' : ∀ lr' ∈ rest, decoder_key "linear" lr' ∉
        (d ++ [(decoder_key "linear" lr,
          mkLinearDecoder embed_dim num_classes is_3d)]).map Prod.fst := by
      intro lr' hlr'
      rw [List.map_append]
      intro hmem
      rcases List.mem_append.mp hmem with hd | hsing
      · exact hfresh lr' (List.mem_cons_of_mem lr hlr') hd
      · have hkey : decoder_key "linear" lr' = decoder_key "linear" lr := by
          simpa using hsing
        have hhead : decoder_key "linear" lr ∉ rest.map (decoder_key "linear") :=
          (List.nodup_cons.mp hnodup).1
        exact hhead (hkey ▸ List.mem_map_of_mem (decoder_key "linear") hlr')
    have hstep := ih
      (d ++ [(decoder_key "linear" lr, mkLinearDecoder embed_dim num_classes is_3d)])
      (g ++ [({ params := mkLinearDecoder embed_dim num_classes is_3d, lr := lr } :
        ParamGroup)])
      hfresh' (List.Nodup.of_cons hnodup)
    rw [setup_decoders_loop, if_pos (by rfl)]
    show setup_decoders_loop embed_dim num_classes is_3d "linear" rest
        (dict_insert d (decoder_key "linear" lr)
          (mkLinearDecoder embed_dim num_classes is_3d))
        (g ++ [⟨mkLinearDecoder embed_dim num_classes is_3d, lr⟩]) = _
    rw [dict_insert_fresh d (decoder_key "linear" lr)
      (mkLinearDecoder embed_dim num_classes is_3d)
      (hfresh lr (List.mem_cons_self lr rest))]
    rw [hstep]
    simp

/-- C3 counterexample: the claim fails for duplicated learning rates — for
the list `[0.1, 0.1]` the ensemble exposes a single decoder key while two
optimizer parameter groups are registered, so decoders and parameter groups
are not in bijection with the supplied learning rates; moreover for the
empty list `setup_decoders` fails (`IndexError` in `AllDecoders`) instead of
returning an ensemble. -/
theorem c3_decoder_sweep_counterexample :
    (setup_decoders 768 [mkRat 1 10, mkRat 1 10] 14 "linear" false).map
        (fun p => (p.1.decoders_dict.length, p.2.length)) = some (1, 2)
    ∧ setup_decoders 768 [] 14 "linear" false = none := by
  exact ⟨by decide, rfl⟩

/-- C3 amended: for every NONEMPTY list of learning rates whose formatted
keys (decoder type plus the rate at ten decimal places) are pairwise
distinct, `setup_decoders` returns an ensemble exposing exactly one
uniquely-keyed decoder per learning rate, in list order, and exactly one
optimizer parameter group per learning rate carrying that rate; for the
empty list construction fails, so a returned ensemble is never empty. -/
theorem c3_decoder_sweep_amended (embed_dim num_classes : Nat) (is_3d : Bool)
    (lrs : List ℚ) (hne : lrs ≠ [])
    (hnodup : (lrs.map (decoder_key "linear")).Nodup) :
    ∃ (ad : AllDecodersM) (gs : List ParamGroup),
      setup_decoders embed_dim lrs num_classes "linear" is_3d = some (ad, gs)
      ∧ ad.decoders_dict.map Prod.fst = lrs.map (decoder_key "linear")
      ∧ ad.decoders_dict.length = lrs.length
      ∧ (ad.decoders_dict.map Prod.fst).Nodup
      ∧ gs.map ParamGroup.lr = lrs
      ∧ gs.length = lrs.length := by
  unfold setup_decoders
  rw [setup_decoders_loop_spec embed_dim num_classes is_3d lrs [] []
    (fun lr _ => List.not_mem_nil _) hnodup]
  cases lrs with
  | nil => exact absurd rfl hne
  | cons lr rest =>
    have hcomp : (Prod.fst ∘ fun lr : ℚ =>
        (decoder_key "linear" lr, mkLinearDecoder embed_dim num_classes is_3d))
        = decoder_key "linear" := rfl
    have hcomp2 : (ParamGroup.lr ∘ fun lr : ℚ =>
        (⟨mkLinearDecoder embed_dim num_classes is_3d, lr⟩ : ParamGroup))
        = id := rfl
    refine ⟨_, _, rfl, ?_, ?_, ?_, ?_, ?_⟩
    · show ((lr :: rest).map (fun lr =>
        (decoder_key "linear" lr, mkLinearDecoder embed_dim num_classes is_3d))).map
          Prod.fst = _
      rw [List.map_map, hcomp]
    · simp [mkAllDecoders]
    · show (((lr :: rest).map (fun lr =>
        (decoder_key "linear" lr, mkLinearDecoder embed_dim num_classes is_3d))).map
          Prod.fst).Nodup
      rw [List.map_map, hcomp]
      exact hnodup
    · show (((lr :: rest).map (fun lr =>
        (⟨mkLinearDecoder embed_dim num_classes is_3d, lr⟩ : ParamGroup))).map
          ParamGroup.lr) = _
      rw [List.map_map, hcomp2, List.map_id]
    · simp [mkAllDecoders]

theorem c3_decoder_sweep_amended_witness :
    (([mkRat 1 10, mkRat 1 100] : List ℚ) ≠ []
    ∧ (([mkRat 1 10, mkRat 1 100].map (decoder_key "linear")).Nodup))
    ∧ ∃ (ad : AllDecodersM) (gs : List ParamGroup),
        setup_decoders 768 [mkRat 1 10, mkRat 1 100] 14 "linear" false
          = some (ad, gs)
        ∧ ad.decoders_dict.map Prod.fst
            = [mkRat 1 10, mkRat 1 100].map (decoder_key "linear")
        ∧ ad.decoders_dict.length = 2
        ∧ (ad.decoders_dict.map Prod.fst).Nodup
        ∧ gs.map ParamGroup.lr = [mkRat 1 10, mkRat 1 100]
        ∧ gs.length = 2 :=
  ⟨⟨by decide, by decide⟩,
    c3_decoder_sweep_amended 768 14 false [mkRat 1 10, mkRat 1 100]
      (by decide) (by decide)⟩

theorem transposeRect_nil_row {α : Type} (rest : List (List α)) :
    transposeRect (([] : List α) :: rest) = [] := by
  rw [transposeRect]

theorem transposeRect_cons_row {α : Type} (a : α) (as : List α)
    (rest : List (List α)) :
    transposeRect ((a :: as) :: rest)
      = (a :: rest.filterMap List.head?) :: transposeRect (as :: rest.map List.tail) := by
  rw [transposeRect]

theorem transposeRect_map_map {α β γ : Type} (g : α → β → γ) :
    ∀ (hs : List α) (l : List β), l ≠ [] →
      transposeRect (l.map (fun b => hs.map (fun h => g h b)))
        = hs.map (fun h => l.map (fun b => g h b)) := by
  intro hs
  induction hs with
  | nil =>
    intro l hl
    cases l with
    | nil => exact absurd rfl hl
    | cons b l' =>
      rw [List.map_cons, List.map_nil, transposeRect_nil_row, List.map_nil]
  | cons h hs ih =>
    intro l hl
    cases l with
    | nil => exact absurd rfl hl
    | cons b l' =>
      have hheads : (l'.map (fun b => (h :: hs).map (fun h => g h b))).filterMap
          List.head? = l'.map (fun b => g h b) := by
        rw [List.filterMap_map]
        have hc : (List.head? ∘ fun b => (h :: hs).map (fun h => g h b))
            = some ∘ (fun b => g h b) := funext (fun b => rfl)
        rw [hc, List.filterMap_eq_map]
      have htails : (l'.map (fun b => (h :: hs).map (fun h => g h b))).map
          List.tail = l'.map (fun b => hs.map (fun h => g h b)) := by
        rw [List.map_map]
        rfl
      have hih := ih (b :: l') (List.cons_ne_nil b l')
      calc transposeRect ((b :: l').map (fun b => (h :: hs).map (fun h => g h b)))
          = transposeRect (((h :: hs).map (fun h => g h b))
              :: l'.map (fun b => (h :: hs).map (fun h => g h b))) := rfl
        _ = (g h b :: (l'.map (fun b => (h :: hs).map (fun h => g h b))).filterMap
              List.head?)
            :: transposeRect ((hs.map (fun h => g h b))
              :: (l'.map (fun b => (h :: hs).map (fun h => g h b))).map List.tail) :=
            transposeRect_cons_row (g h b) (hs.map (fun h => g h b)) _
        _ = (g h b :: l'.map (fun b => g h b))
            :: transposeRect ((hs.map (fun h => g h b))
              :: l'.map (fun b => hs.map (fun h => g h b))) := by
            rw [hheads, htails]
        _ = (g h b :: l'.map (fun b => g h b))
            :: transposeRect ((b :: l').map (fun b => hs.map (fun h => g h b))) := rfl
        _ = (g h b :: l'.map (fun b => g h b))
            :: hs.map (fun h => (b :: l').map (fun b => g h b)) := by rw [hih]
        _ = (h :: hs).map (fun h => (b :: l').map (fun b => g h b)) := rfl

/-- C9: for every nonempty 3D batch and nonempty set of classifier heads,
the dispatch layer returns a mapping whose keys are exactly the head names
in their declaration (insertion) order, and whose entry for each head is
that head's outputs aligned across the batch dimension — entry `b` of head
`k`'s stacked tensor is `k` applied to the features collected from the
non-empty slices of batch entry `b`. -/
theorem c9_head_dispatch {F O : Type} (feature_model : List Slice → F)
    (classifier_heads : List (String × (List F → O))) (data : List (List Slice))
    (h1 : classifier_heads ≠ []) (h2 : data ≠ []) :
    classifier_forward_pass_3d feature_model classifier_heads data
      = some (classifier_heads.map (fun kv => (kv.1, data.map (fun batch_scans =>
          kv.2 (batch_scans.filterMap (fun scan =>
            if is_zero_matrix scan then none
            else some (feature_model [scan]))))))) := by
  cases classifier_heads with
  | nil => exact absurd rfl h1
  | cons k ks =>
    cases data with
    | nil => exact absurd rfl h2
    | cons b bs =>
      unfold classifier_forward_pass_3d
      have hrows : (((b :: bs).map (fun batch_scans => batch_scans.filterMap
            (fun scan => if is_zero_matrix scan then none
              else some (feature_model [scan])))).map
          (fun bf => (k :: ks).map (fun kv => kv.2 bf)))
          = (b :: bs).map (fun bscans => (k :: ks).map (fun kv =>
              kv.2 (bscans.filterMap (fun scan =>
                if is_zero_matrix scan then none
                else some (feature_model [scan]))))) := by
        rw [List.map_map]
        rfl
      show (if _ = true then none else if _ = true then none else _) = _
      rw [hrows]
      have hany : ((b :: bs).map (fun bscans => (k :: ks).map (fun kv =>
          kv.2 (bscans.filterMap (fun scan =>
            if is_zero_matrix scan then none
            else some (feature_model [scan])))))).any List.isEmpty = false := by
        apply List.any_eq_false.mpr
        intro r hr
        obtain ⟨bscans, hmem, rfl⟩ := List.mem_map.mp hr
        exact fun hco => List.cons_ne_nil _ _ (List.isEmpty_iff.mp hco)
      rw [hany]
      rw [if_neg (by exact Bool.false_ne_true)]
      rw [if_neg (by
        rw [List.map_cons]
        exact fun hco => List.cons_ne_nil _ _ (List.isEmpty_iff.mp hco))]
      rw [transposeRect_map_map (fun kv bscans => kv.2 (bscans.filterMap
        (fun scan => if is_zero_matrix scan then none
          else some (feature_model [scan])))) (k :: ks) (b :: bs)
        (List.cons_ne_nil b bs)]
      rw [List.zip_map']

theorem c9_head_dispatch_witness :
    classifier_forward_pass_3d (fun s : List Slice => s)
        [("head", fun fs : List (List Slice) => fs.length)] [[[1], [0]]]
      = some [("head", [1])] := by
  have h := c9_head_dispatch (fun s : List Slice => s)
    [("head", fun fs : List (List Slice) => fs.length)] [[[1], [0]]]
    (List.cons_ne_nil _ _) (List.cons_ne_nil _ _)
  rw [h]
  simp [is_zero_matrix]

theorem mapM_option_forall {α β : Type} (f : α → Option β) (P : β → Prop) :
    ∀ l : List α, (∀ a ∈ l, ∃ b, f a = some b ∧ P b) →
      ∃ bs, l.mapM f = some bs ∧ ∀ b ∈ bs, P b := by
  intro l
  induction l with
  | nil => exact fun _ => ⟨[], rfl, by intro b hb; exact absurd hb (List.not_mem_nil b)⟩
  | cons a l ih =>
    intro h
    obtain ⟨b, hb, hPb⟩ := h a (List.mem_cons_self a l)
    obtain ⟨bs, hbs, hP⟩ := ih (fun a' ha' => h a' (List.mem_cons_of_mem a ha'))
    refine ⟨b :: bs, ?_, ?_⟩
    · rw [List.mapM_cons, hb, hbs]
      rfl
    · intro b' hb'
      rcases List.mem_cons.mp hb' with rfl | hm
      · exact hPb
      · exact hP b' hm

theorem cdiv_posterior_safe (p1 p0 : ℚ) (hp1 : 0 < p1) (hp0 : 0 < p0) :
    ∃ p, cdiv p1 (p1 + p0) = some p ∧ 0 ≤ p ∧ p ≤ 1 := by
  have hden : p1 + p0 ≠ 0 := ne_of_gt (add_pos hp1 hp0)
  refine ⟨p1 / (p1 + p0), ?_, ?_, ?_⟩
  · unfold cdiv
    rw [if_neg hden]
  · exact div_nonneg hp1.le (add_pos hp1 hp0).le
  · rw [div_le_one (add_pos hp1 hp0)]
    exact le_add_of_nonneg_right hp0.le

theorem mlknn_predict_one_safe (labels : List (List Bool))
    (neighbors : Nat → List Nat) (k : Nat) (qnbrs : List Nat) (c : Nat) :
    ∃ p, mlknn_predict_one labels neighbors k qnbrs c = some p
      ∧ 0 ≤ p ∧ p ≤ 1 := by
  have hprior_den : (0 : ℚ) < 1 * 2 + (labels.length : ℚ) := by positivity
  have hcond_pos_den : (0 : ℚ) < 1 * ((k : ℚ) + 1)
      + ((List.range (k + 1)).map
          (fun j' => (c_hist labels neighbors c j' : ℚ))).sum := by
    have hsum : (0 : ℚ) ≤ ((List.range (k + 1)).map
        (fun j' => (c_hist labels neighbors c j' : ℚ))).sum :=
      List.sum_nonneg (by
        intro x hx
        obtain ⟨j', _, rfl⟩ := List.mem_map.mp hx
        positivity)
    positivity
  have hcond_neg_den : (0 : ℚ) < 1 * ((k : ℚ) + 1)
      + ((List.range (k + 1)).map
          (fun j' => (cn_hist labels neighbors c j' : ℚ))).sum := by
    have hsum : (0 : ℚ) ≤ ((List.range (k + 1)).map
        (fun j' => (cn_hist labels neighbors c j' : ℚ))).sum :=
      List.sum_nonneg (by
        intro x hx
        obtain ⟨j', _, rfl⟩ := List.mem_map.mp hx
        positivity)
    positivity
  have h1 : mlknn_prior_pos labels c
      = some ((1 + (count_pos labels c : ℚ)) / (1 * 2 + (labels.length : ℚ))) := by
    unfold mlknn_prior_pos cdiv
    rw [if_neg (ne_of_gt hprior_den)]
  have h0 : mlknn_prior_neg labels c
      = some ((1 + (count_neg labels c : ℚ)) / (1 * 2 + (labels.length : ℚ))) := by
    unfold mlknn_prior_neg cdiv
    rw [if_neg (ne_of_gt hprior_den)]
  have hc1 : mlknn_cond_pos labels neighbors k c (pos_count labels qnbrs c)
      = some ((1 + (c_hist labels neighbors c (pos_count labels qnbrs c) : ℚ))
          / (1 * ((k : ℚ) + 1) + ((List.range (k + 1)).map
              (fun j' => (c_hist labels neighbors c j' : ℚ))).sum)) := by
    unfold mlknn_cond_pos cdiv
    rw [if_neg (ne_of_gt hcond_pos_den)]
  have hc0 : mlknn_cond_neg labels neighbors k c (pos_count labels qnbrs c)
      = some ((1 + (cn_hist labels neighbors c (pos_count labels qnbrs c) : ℚ))
          / (1 * ((k : ℚ) + 1) + ((List.range (k + 1)).map
              (fun j' => (cn_hist labels neighbors c j' : ℚ))).sum)) := by
    unfold mlknn_cond_neg cdiv
    rw [if_neg (ne_of_gt hcond_neg_den)]
  have hp1 : (0 : ℚ) < (1 + (count_pos labels c : ℚ)) / (1 * 2 + (labels.length : ℚ))
      * ((1 + (c_hist labels neighbors c (pos_count labels qnbrs c) : ℚ))
          / (1 * ((k : ℚ) + 1) + ((List.range (k + 1)).map
              (fun j' => (c_hist labels neighbors c j' : ℚ))).sum)) := by
    apply mul_pos
    · apply div_pos ?_ hprior_den
      positivity
    · apply div_pos ?_ hcond_pos_den
      positivity
  have hp0 : (0 : ℚ) < (1 + (count_neg labels c : ℚ)) / (1 * 2 + (labels.length : ℚ))
      * ((1 + (cn_hist labels neighbors c (pos_count labels qnbrs c) : ℚ))
          / (1 * ((k : ℚ) + 1) + ((List.range (k + 1)).map
              (fun j' => (cn_hist labels neighbors c j' : ℚ))).sum)) := by
    apply mul_pos
    · apply div_pos ?_ hprior_den
      positivity
    · apply div_pos ?_ hcond_neg_den
      positivity
  unfold mlknn_predict_one
  simp only [h1, hc1, h0, hc0, Option.bind_some]
  exact cdiv_posterior_safe _ _ hp1 hp0

/-- C2: for every k, every training label matrix (including degenerate
all-positive or all-negative classes), every neighbor assignment and every
query set — in particular the training set itself — MLkNN predict after fit
never hits a zero denominator (no division error: the checked pipeline
always returns `some`), and every posterior probability produced lies in
[0, 1]; the add-one Laplace smoothing keeps every denominator positive. -/
theorem c2_mlknn_no_division_error (k : Nat) (labels : List (List Bool))
    (neighbors : Nat → List Nat) (query_neighbors : List (List Nat))
    (num_labels : Nat) :
    ∃ probs, mlknn_predict labels neighbors k query_neighbors num_labels
        = some probs
      ∧ ∀ row ∈ probs, ∀ p ∈ row, 0 ≤ p ∧ p ≤ 1 := by
  unfold mlknn_predict
  apply mapM_option_forall _ (fun row => ∀ p ∈ row, 0 ≤ p ∧ p ≤ 1)
  intro q _
  apply mapM_option_forall _ (fun p => 0 ≤ p ∧ p ≤ 1)
  intro c _
  exact mlknn_predict_one_safe labels neighbors k q c
